import Mathlib

/-!
Verification development for the browser-driven Zerodha login flow in
`src/final.py`.

Strings are modelled as `List Char`.  Python's `str.split(sep)` (for a
non-empty separator), the `in` substring test, and `str.lstrip(chars)` are
modelled by `pySplit`, `containsSub` and `pyLstrip` below, and are used to
embed the request-token extraction logic of `ZerodhaClient.login`
(lines 374-389).  The retry loops (OTP entry, OTP submission, the
attempt-level `@retry` wrapper), the first-screen submit fallback and the
MongoDB persistence call are embedded as explicit trace-producing
functions further down.
-/

/-- Index of the first occurrence of `sep` in `s`, if any: the least `i`
such that `sep` begins at position `i` of `s`.  This is where Python's
`str.split` / `in` locate a pattern. -/
def findSub (sep : List Char) : List Char → Option Nat
  | [] => if sep <+: ([] : List Char) then some 0 else none
  | c :: t => if sep <+: (c :: t) then some 0 else (findSub sep t).map (· + 1)

/-- An occurrence reported by `findSub` fits inside the string. -/
theorem findSub_bound (sep : List Char) :
    ∀ (s : List Char) (i : Nat), findSub sep s = some i → i + sep.length ≤ s.length := by
  intro s
  induction s with
  | nil =>
    intro i h
    simp only [findSub] at h
    split at h
    · next hp =>
      simp only [Option.some.injEq] at h
      subst h
      simpa using hp.length_le
    · exact absurd h (by simp)
  | cons c t ih =>
    intro i h
    simp only [findSub] at h
    split at h
    · next hp =>
      simp only [Option.some.injEq] at h
      subst h
      simpa using hp.length_le
    · next hp =>
      rcases Option.map_eq_some'.mp h with ⟨j, hj, rfl⟩
      have := ih j hj
      simp only [List.length_cons]
      omega

/-- `findSub` reports a real occurrence. -/
theorem findSub_some_occ (sep : List Char) :
    ∀ (s : List Char) (i : Nat), findSub sep s = some i → sep <+: s.drop i := by
  intro s
  induction s with
  | nil =>
    intro i h
    simp only [findSub] at h
    split at h
    · next hp =>
      simp only [Option.some.injEq] at h
      subst h
      simpa using hp
    · exact absurd h (by simp)
  | cons c t ih =>
    intro i h
    simp only [findSub] at h
    split at h
    · next hp =>
      simp only [Option.some.injEq] at h
      subst h
      simpa using hp
    · next hp =>
      rcases Option.map_eq_some'.mp h with ⟨j, hj, rfl⟩
      simpa using ih j hj

/-- `findSub` reports the first occurrence: nothing earlier matches. -/
theorem findSub_min (sep : List Char) :
    ∀ (s : List Char) (i : Nat), findSub sep s = some i →
      ∀ j, j < i → ¬ sep <+: s.drop j := by
  intro s
  induction s with
  | nil =>
    intro i h
    simp only [findSub] at h
    split at h
    · next hp =>
      simp only [Option.some.injEq] at h
      subst h
      intro j hj
      omega
    · exact absurd h (by simp)
  | cons c t ih =>
    intro i h
    simp only [findSub] at h
    split at h
    · next hp =>
      simp only [Option.some.injEq] at h
      subst h
      intro j hj
      omega
    · next hp =>
      rcases Option.map_eq_some'.mp h with ⟨j, hj, rfl⟩
      intro k hk
      match k with
      | 0 => simpa using hp
      | m + 1 =>
        have := ih j hj m (by omega)
        simpa using this

/-- When `findSub` finds nothing, no position carries an occurrence. -/
theorem findSub_none_occ (sep : List Char) :
    ∀ (s : List Char), findSub sep s = none → ∀ j, ¬ sep <+: s.drop j := by
  intro s
  induction s with
  | nil =>
    intro h j
    simp only [findSub] at h
    split at h
    · exact absurd h (by simp)
    · next hp => simpa using hp
  | cons c t ih =>
    intro h j
    simp only [findSub] at h
    split at h
    · exact absurd h (by simp)
    · next hp =>
      have ht : findSub sep t = none := by
        cases hfs : findSub sep t with
        | none => rfl
        | some m => rw [hfs] at h; simp at h
      match j with
      | 0 => simpa using hp
      | m + 1 => simpa using ih ht m

/-- Python `str.split(sep)`, fuelled structural version (non-empty `sep`):
cut at the first occurrence of `sep` and recurse on the remainder. -/
def pySplitF (sep : List Char) : Nat → List Char → List (List Char)
  | 0, s => [s]
  | fuel + 1, s =>
    match findSub sep s with
    | none => [s]
    | some i => s.take i :: pySplitF sep fuel (s.drop (i + sep.length))

/-- Python `s.split(sep)` for a non-empty separator `sep`. -/
def pySplit (sep s : List Char) : List (List Char) :=
  pySplitF sep (s.length + 1) s

/-- Any two sufficiently large fuels give the same split. -/
theorem pySplitF_congr (sep : List Char) (hsep : sep ≠ []) :
    ∀ (fuel : Nat) (s : List Char) (fuel2 : Nat), s.length < fuel → s.length < fuel2 →
      pySplitF sep fuel s = pySplitF sep fuel2 s := by
  intro fuel
  induction fuel with
  | zero => intro s fuel2 h1 h2; omega
  | succ f ih =>
    intro s fuel2 h1 h2
    cases fuel2 with
    | zero => omega
    | succ f2 =>
      simp only [pySplitF]
      cases hfs : findSub sep s with
      | none => rfl
      | some i =>
        have hb := findSub_bound sep s i hfs
        have hpos : 0 < sep.length := List.length_pos.mpr hsep
        have hlen : (s.drop (i + sep.length)).length < s.length := by
          simp only [List.length_drop]
          omega
        exact congrArg (List.cons (s.take i))
          (ih (s.drop (i + sep.length)) f2 (by omega) (by omega))

/-- Split when the separator does not occur: one part, the whole string. -/
theorem pySplit_of_none (sep s : List Char) (h : findSub sep s = none) :
    pySplit sep s = [s] := by
  simp [pySplit, pySplitF, h]

/-- Split when the separator first occurs at `i`: the part before it,
followed by the split of the remainder. -/
theorem pySplit_of_some (sep s : List Char) (hsep : sep ≠ []) (i : Nat)
    (h : findSub sep s = some i) :
    pySplit sep s = s.take i :: pySplit sep (s.drop (i + sep.length)) := by
  have hb := findSub_bound sep s i h
  have hpos : 0 < sep.length := List.length_pos.mpr hsep
  have hlen : (s.drop (i + sep.length)).length < s.length := by
    simp only [List.length_drop]
    omega
  simp only [pySplit, pySplitF, h]
  exact congrArg (List.cons (s.take i))
    (pySplitF_congr sep hsep s.length (s.drop (i + sep.length))
      ((s.drop (i + sep.length)).length + 1) (by omega) (by omega))

/-- A split never returns the empty list of parts. -/
theorem pySplit_ne_nil (sep s : List Char) : pySplit sep s ≠ [] := by
  cases hfs : findSub sep s with
  | none => simp [pySplit_of_none sep s hfs]
  | some i =>
    by_cases hsep : sep = []
    · subst hsep
      simp [pySplit, pySplitF]
      cases hfs2 : findSub [] s <;> simp
    · simp [pySplit_of_some sep s hsep i hfs]

/-- Python `sep in s` (substring containment) for a non-empty `sep`. -/
def containsSub (sep s : List Char) : Bool :=
  (findSub sep s).isSome

theorem containsSub_false_iff (sep s : List Char) :
    containsSub sep s = false ↔ findSub sep s = none := by
  cases hfs : findSub sep s <;> simp [containsSub, hfs]

theorem containsSub_true_iff (sep s : List Char) :
    containsSub sep s = true ↔ ∃ i, findSub sep s = some i := by
  cases hfs : findSub sep s <;> simp [containsSub, hfs]

/-- Python `s.lstrip(chars)`: drop leading characters from the set. -/
def pyLstrip (chars s : List Char) : List Char :=
  s.dropWhile (fun c => chars.contains c)

/-- If nothing matches strictly inside `a` and `sep` begins right at the
`a`/`b` boundary, the first occurrence of `sep` in `a ++ b` is at `a.length`. -/
theorem findSub_append_boundary (sep a b : List Char)
    (hfirst : ∀ j, j < a.length → ¬ sep <+: (a ++ b).drop j)
    (hocc : sep <+: b) :
    findSub sep (a ++ b) = some a.length := by
  have hocc2 : sep <+: (a ++ b).drop a.length := by
    rw [List.drop_left]
    exact hocc
  cases hfs : findSub sep (a ++ b) with
  | none => exact absurd hocc2 (findSub_none_occ sep (a ++ b) hfs a.length)
  | some i =>
    have h2 := findSub_min sep (a ++ b) i hfs
    rcases Nat.lt_trichotomy i a.length with hlt | heq | hgt
    · exact absurd (findSub_some_occ sep (a ++ b) i hfs) (hfirst i hlt)
    · rw [heq]
    · exact absurd hocc2 (h2 a.length hgt)

/-- If `sep` does not occur in `a` and does not contain the character `c`,
then every occurrence of `sep` in `a ++ c :: b` starts strictly after `a`. -/
theorem occ_gt_of_not_in (sep a b : List Char) (c : Char)
    (ha : findSub sep a = none) (hc : c ∉ sep) (i : Nat)
    (hocc : sep <+: (a ++ c :: b).drop i) : a.length < i := by
  by_contra hle
  push_neg at hle
  rcases hocc with ⟨t, ht⟩
  rw [List.drop_append_of_le_length hle] at ht
  by_cases hlen : sep.length ≤ (a.drop i).length
  · have htake : (sep ++ t).take sep.length = (a.drop i ++ c :: b).take sep.length := by
      rw [ht]
    rw [List.take_left, List.take_append_of_le_length hlen] at htake
    have hpre : sep <+: a.drop i := htake ▸ List.take_prefix sep.length (a.drop i)
    exact findSub_none_occ sep a ha i hpre
  · push_neg at hlen
    have hdrop : (sep ++ t).drop (a.drop i).length =
        (a.drop i ++ c :: b).drop (a.drop i).length := by
      rw [ht]
    rw [List.drop_append_of_le_length (Nat.le_of_lt hlen), List.drop_left] at hdrop
    have hne : sep.drop (a.drop i).length ≠ [] := by
      simp only [ne_eq, List.drop_eq_nil_iff]
      omega
    cases hd : sep.drop (a.drop i).length with
    | nil => exact hne hd
    | cons d ds =>
      rw [hd] at hdrop
      simp only [List.cons_append, List.cons.injEq] at hdrop
      have hdm : d ∈ sep := by
        have hsuf : sep.drop (a.drop i).length <:+ sep :=
          List.drop_suffix (a.drop i).length sep
        exact hsuf.mem (hd ▸ List.mem_cons_self d ds)
      exact hc (hdrop.1 ▸ hdm)

/-- Longer pattern occurring implies its front part occurs at the same spot. -/
theorem occ_of_occ_append (sep ext s : List Char) (i : Nat)
    (hocc : (sep ++ ext) <+: s.drop i) : sep <+: s.drop i :=
  (List.prefix_append sep ext).trans hocc

/-! ## Request-token extraction (`ZerodhaClient.login`, lines 378-389)

```python
rt_url = driver.current_url
if "request_token=" in rt_url:
    rt = rt_url.split("request_token=")[1].split("&")[0]
elif "request_token" in rt_url:
    parts = rt_url.split("request_token")
    if len(parts) > 1:
        rt = parts[1].lstrip("=&#?/")
    else:
        raise Exception("Request token not found in URL; login failed?")
else:
    raise Exception("Request token not found in URL; login failed?")
```
-/

def REQUEST_TOKEN_EQ : List Char := "request_token=".data

def REQUEST_TOKEN : List Char := "request_token".data

def STRIP_CHARS : List Char := "=&#?/".data

def TOKEN_NOT_FOUND_MSG : String := "Request token not found in URL; login failed?"

/-- The token-extraction step of `login` (lines 380-389), on the terminal
URL.  `Except.error` models the raised exception. -/
def extractRequestToken (rt_url : List Char) : Except String (List Char) :=
  if containsSub REQUEST_TOKEN_EQ rt_url then
    .ok ((pySplit "&".data ((pySplit REQUEST_TOKEN_EQ rt_url).getD 1 [])).headD [])
  else if containsSub REQUEST_TOKEN rt_url then
    let parts := pySplit REQUEST_TOKEN rt_url
    if parts.length > 1 then
      .ok (pyLstrip STRIP_CHARS (parts.getD 1 []))
    else
      .error TOKEN_NOT_FOUND_MSG
  else
    .error TOKEN_NOT_FOUND_MSG

/-- A character absent from a string never occurs as a one-character pattern. -/
theorem findSub_singleton_none (c : Char) (l : List Char) (hc : c ∉ l) :
    findSub [c] l = none := by
  cases hfs : findSub [c] l with
  | none => rfl
  | some i =>
    rcases findSub_some_occ [c] l i hfs with ⟨t, ht⟩
    have hmem : c ∈ l.drop i := by
      rw [← ht]
      simp
    exact absurd ((List.drop_suffix i l).mem hmem) hc

/-- The first occurrence of the character `c` in `a ++ c :: b`, where `c`
does not appear in `a`, is at position `a.length`. -/
theorem findSub_singleton_boundary (c : Char) (a b : List Char) (hc : c ∉ a) :
    findSub [c] (a ++ c :: b) = some a.length := by
  apply findSub_append_boundary
  · intro j hj hp
    rcases hp with ⟨t, ht⟩
    rw [List.drop_append_of_le_length (Nat.le_of_lt hj)] at ht
    cases hd : a.drop j with
    | nil =>
      have := List.drop_eq_nil_iff.mp hd
      omega
    | cons d ds =>
      rw [hd] at ht
      simp only [List.cons_append, List.cons.injEq] at ht
      have hdm : d ∈ a :=
        (List.drop_suffix j a).mem (hd ▸ List.mem_cons_self d ds)
      exact hc (ht.1 ▸ hdm)
  · exact ⟨b, rfl⟩

/-- C2: for every terminal URL of the form
`p ++ "request_token=" ++ code ++ s` in which the shown occurrence of
`request_token=` is the first one, the code contains no `&` and not the
marker itself, and the part after the code is empty or starts with `&`,
the extraction step yields exactly `code`, with no trailing separator. -/

theorem extract_token_clean_delimiter (p code s : List Char)
    (hfirst : ∀ j, j < p.length →
      ¬ REQUEST_TOKEN_EQ <+: (p ++ REQUEST_TOKEN_EQ ++ code ++ s).drop j)
    (hamp : '&' ∉ code)
    (hcode : containsSub REQUEST_TOKEN_EQ code = false)
    (hs : s = [] ∨ ∃ s2, s = '&' :: s2) :
    extractRequestToken (p ++ REQUEST_TOKEN_EQ ++ code ++ s) = .ok code := by
  have hassoc : p ++ REQUEST_TOKEN_EQ ++ code ++ s
      = p ++ (REQUEST_TOKEN_EQ ++ (code ++ s)) := by
    simp [List.append_assoc]
  have hfind : findSub REQUEST_TOKEN_EQ (p ++ REQUEST_TOKEN_EQ ++ code ++ s)
      = some p.length := by
    rw [hassoc]
    apply findSub_append_boundary
    · intro j hj
      rw [← hassoc]
      exact hfirst j hj
    · exact List.prefix_append _ _
  have hcont : containsSub REQUEST_TOKEN_EQ (p ++ REQUEST_TOKEN_EQ ++ code ++ s) = true :=
    (containsSub_true_iff _ _).mpr ⟨p.length, hfind⟩
  have hsplit := pySplit_of_some REQUEST_TOKEN_EQ
    (p ++ REQUEST_TOKEN_EQ ++ code ++ s) (by decide) p.length hfind
  have htake : (p ++ REQUEST_TOKEN_EQ ++ code ++ s).take p.length = p := by
    rw [hassoc]
    exact List.take_left p _
  have hdrop : (p ++ REQUEST_TOKEN_EQ ++ code ++ s).drop
      (p.length + REQUEST_TOKEN_EQ.length) = code ++ s := by
    have h2 : p ++ REQUEST_TOKEN_EQ ++ code ++ s
        = (p ++ REQUEST_TOKEN_EQ) ++ (code ++ s) := by
      simp [List.append_assoc]
    rw [h2, ← List.length_append]
    exact List.drop_left _ _
  rw [htake, hdrop] at hsplit
  have hmid : ∃ tail, (pySplit REQUEST_TOKEN_EQ (code ++ s)).getD 0 [] = code ++ tail ∧
      (tail = [] ∨ ∃ t2, tail = '&' :: t2) := by
    rcases hs with rfl | ⟨s2, rfl⟩
    · refine ⟨[], ?_, Or.inl rfl⟩
      rw [List.append_nil]
      rw [pySplit_of_none REQUEST_TOKEN_EQ code (((containsSub_false_iff _ _).mp hcode))]
      simp
    · cases hfs2 : findSub REQUEST_TOKEN_EQ (code ++ '&' :: s2) with
      | none =>
        refine ⟨'&' :: s2, ?_, Or.inr ⟨s2, rfl⟩⟩
        rw [pySplit_of_none _ _ hfs2]
        simp
      | some i =>
        have hgt : code.length < i :=
          occ_gt_of_not_in REQUEST_TOKEN_EQ code s2 '&'
            (((containsSub_false_iff _ _).mp hcode)) (by decide) i
            (findSub_some_occ _ _ i hfs2)
        obtain ⟨k, hk⟩ : ∃ k, i = code.length + (k + 1) := ⟨i - code.length - 1, by omega⟩
        refine ⟨'&' :: s2.take k, ?_, Or.inr ⟨s2.take k, rfl⟩⟩
        rw [pySplit_of_some _ _ (by decide) i hfs2]
        simp only [List.getD_cons_zero]
        rw [hk, List.take_append]
        rfl
  rcases hmid with ⟨tail, hmid1, hmid2⟩
  simp only [extractRequestToken, hcont, if_true]
  rw [hsplit]
  simp only [List.getD_cons_succ]
  rw [hmid1]
  rcases hmid2 with rfl | ⟨t2, rfl⟩
  · rw [List.append_nil]
    rw [pySplit_of_none "&".data code (findSub_singleton_none '&' code hamp)]
    rfl
  · rw [pySplit_of_some "&".data (code ++ '&' :: t2) (by decide) code.length
      (findSub_singleton_boundary '&' code t2 hamp)]
    rw [List.take_left]
    rfl

theorem extract_token_clean_delimiter_witness :
    extractRequestToken ("https://x/?".data ++ REQUEST_TOKEN_EQ ++ "abc123".data
      ++ "&status=success".data) = .ok "abc123".data :=
  extract_token_clean_delimiter "https://x/?".data "abc123".data "&status=success".data
    (by decide) (by decide) (by rfl) (Or.inr ⟨"status=success".data, rfl⟩)

/-- C3 counterexample: on a terminal URL where the bare marker
`request_token` occurs twice (and `request_token=` never occurs), the code
takes the segment between the first and the second occurrence, not
everything after the first occurrence as the claim states.  Here
`#abrequest_token#cd` is everything after the first occurrence; stripping
the leading `=&#?/` characters from it gives `abrequest_token#cd`, yet the
code extracts `ab`. -/
theorem extract_bare_marker_counterexample :
    extractRequestToken "https://x/request_token#abrequest_token#cd".data
      = .ok "ab".data ∧
    pyLstrip STRIP_CHARS "#abrequest_token#cd".data = "abrequest_token#cd".data ∧
    "ab".data ≠ "abrequest_token#cd".data :=
  ⟨by rfl, by rfl, by decide⟩

/-- C3 (amended): for a terminal URL containing exactly one occurrence of
the bare marker `request_token` and no occurrence of `request_token=`,
extraction takes everything after the marker, strips any leading
characters among `=&#?/`, and yields the remainder. -/
theorem extract_bare_marker_single_occurrence (p r : List Char)
    (hfirst : ∀ j, j < p.length →
      ¬ REQUEST_TOKEN <+: (p ++ REQUEST_TOKEN ++ r).drop j)
    (hr : containsSub REQUEST_TOKEN r = false)
    (hne : containsSub REQUEST_TOKEN_EQ (p ++ REQUEST_TOKEN ++ r) = false) :
    extractRequestToken (p ++ REQUEST_TOKEN ++ r)
      = .ok (pyLstrip STRIP_CHARS r) := by
  have hassoc : p ++ REQUEST_TOKEN ++ r = p ++ (REQUEST_TOKEN ++ r) := by
    simp [List.append_assoc]
  have hfind : findSub REQUEST_TOKEN (p ++ REQUEST_TOKEN ++ r) = some p.length := by
    rw [hassoc]
    apply findSub_append_boundary
    · intro j hj
      rw [← hassoc]
      exact hfirst j hj
    · exact List.prefix_append _ _
  have hcont : containsSub REQUEST_TOKEN (p ++ REQUEST_TOKEN ++ r) = true :=
    (containsSub_true_iff _ _).mpr ⟨p.length, hfind⟩
  have hsplit := pySplit_of_some REQUEST_TOKEN (p ++ REQUEST_TOKEN ++ r)
    (by decide) p.length hfind
  have htake : (p ++ REQUEST_TOKEN ++ r).take p.length = p := by
    rw [hassoc]
    exact List.take_left p _
  have hdrop : (p ++ REQUEST_TOKEN ++ r).drop
      (p.length + REQUEST_TOKEN.length) = r := by
    rw [← List.length_append]
    exact List.drop_left _ _
  rw [htake, hdrop, pySplit_of_none REQUEST_TOKEN r
    ((containsSub_false_iff _ _).mp hr)] at hsplit
  simp only [extractRequestToken, hne, hcont, if_true, Bool.false_eq_true, if_false]
  rw [hsplit]
  rfl

theorem extract_bare_marker_single_occurrence_witness :
    extractRequestToken ("https://x/".data ++ REQUEST_TOKEN ++ "#xyz789".data)
      = .ok (pyLstrip STRIP_CHARS "#xyz789".data) :=
  extract_bare_marker_single_occurrence "https://x/".data "#xyz789".data
    (by decide) (by rfl) (by rfl)

/-- C4: for every URL that does not contain the `request_token` marker,
extraction does not return a token: it fails with the
`Request token not found in URL; login failed?` exception. -/
theorem extract_no_marker_errors (url : List Char)
    (h : containsSub REQUEST_TOKEN url = false) :
    extractRequestToken url = .error TOKEN_NOT_FOUND_MSG := by
  have heq : containsSub REQUEST_TOKEN_EQ url = false := by
    rw [containsSub_false_iff]
    cases hfs : findSub REQUEST_TOKEN_EQ url with
    | none => rfl
    | some i =>
      have hocc := findSub_some_occ REQUEST_TOKEN_EQ url i hfs
      have he : REQUEST_TOKEN ++ ['='] = REQUEST_TOKEN_EQ := by rfl
      have h2 : REQUEST_TOKEN <+: url.drop i :=
        occ_of_occ_append REQUEST_TOKEN ['='] url i (he ▸ hocc)
      exact absurd h2
        (findSub_none_occ REQUEST_TOKEN url ((containsSub_false_iff _ _).mp h) i)
  simp [extractRequestToken, heq, h]

theorem extract_no_marker_errors_witness :
    extractRequestToken "https://kite.zerodha.com/?status=success".data
      = .error TOKEN_NOT_FOUND_MSG :=
  extract_no_marker_errors "https://kite.zerodha.com/?status=success".data (by rfl)

/-- C9: for every URL containing the `request_token` substring, extraction
never raises the token-not-found error (the guard inside the bare-marker
branch is unreachable, since splitting on a present substring yields at
least two parts); in particular a URL ending exactly at the marker, or at
`request_token=`, yields the empty string as the extracted code. -/
theorem extract_total_on_marker :
    (∀ url : List Char, containsSub REQUEST_TOKEN url = true →
      ∃ code, extractRequestToken url = .ok code) ∧
    extractRequestToken "https://kite.zerodha.com/connect/login/request_token".data
      = .ok [] ∧
    extractRequestToken "https://kite.zerodha.com/connect/login/request_token=".data
      = .ok [] := by
  refine ⟨?_, by rfl, by rfl⟩
  intro url h
  cases heq : containsSub REQUEST_TOKEN_EQ url with
  | true =>
    exact ⟨(pySplit "&".data ((pySplit REQUEST_TOKEN_EQ url).getD 1 [])).headD [],
      by simp [extractRequestToken, heq]⟩
  | false =>
    rcases (containsSub_true_iff _ _).mp h with ⟨i, hfs⟩
    have hsplit := pySplit_of_some REQUEST_TOKEN url (by decide) i hfs
    have hlen : (pySplit REQUEST_TOKEN url).length > 1 := by
      rw [hsplit]
      have hpos : 0 < (pySplit REQUEST_TOKEN
          (url.drop (i + REQUEST_TOKEN.length))).length :=
        List.length_pos.mpr (pySplit_ne_nil _ _)
      simp only [List.length_cons]
      omega
    exact ⟨pyLstrip STRIP_CHARS ((pySplit REQUEST_TOKEN url).getD 1 []),
      by simp [extractRequestToken, heq, h, hlen]⟩

theorem extract_total_on_marker_witness :
    ∃ code, extractRequestToken "https://x/request_token%3Dabc".data = .ok code :=
  extract_total_on_marker.1 "https://x/request_token%3Dabc".data (by rfl)

/-! ## Completion detection (`ZerodhaClient.login`, lines 337-377)

The redirect wait at lines 375-377 is

```python
wait.until(
    EC.url_contains("request_token") or EC.url_contains("status=success")
)
```

`EC.url_contains(...)` returns a condition object — an always-truthy
Python value — so the `or` short-circuits and the wait polls only the
first condition.  The auto-submit check at lines 361-364 is, by contrast,
a genuine boolean disjunction of the two substring tests.
-/

/-- A Selenium expected-condition object as returned by
`EC.url_contains(pat)`: it carries the pattern to poll for. -/
structure ExpectedCondition where
  pattern : List Char
deriving DecidableEq

/-- `EC.url_contains(pat)`. -/
def url_contains (pat : List Char) : ExpectedCondition := ⟨pat⟩

/-- Python `a or b` applied to two expected-condition objects: both
operands are class instances and hence truthy, so `or` short-circuits and
evaluates to its first operand. -/
def pyOrObj (a _b : ExpectedCondition) : ExpectedCondition := a

def STATUS_SUCCESS : List Char := "status=success".data

/-- The condition actually passed to the redirect wait at lines 375-377. -/
def redirectWaitCondition : ExpectedCondition :=
  pyOrObj (url_contains REQUEST_TOKEN) (url_contains STATUS_SUCCESS)

/-- Whether a `WebDriverWait.until` on condition `c` is satisfied by a
page whose current URL is `u`: `EC.url_contains` tests substring
containment of the pattern in the URL.  If this never becomes true within
the bound, the wait raises a timeout. -/
def conditionHolds (c : ExpectedCondition) (u : List Char) : Bool :=
  containsSub c.pattern u

/-- The auto-submit check at lines 361-364:
`"request_token" in driver.current_url or "status=success" in driver.current_url`. -/
def autoSubmitted (u : List Char) : Bool :=
  containsSub REQUEST_TOKEN u || containsSub STATUS_SUCCESS u

/-- C1 (code evaluated at the failing input): on a URL containing
`status=success` but not `request_token`, the auto-submit check of
lines 361-364 reports success, yet the redirect wait of lines 375-377 is
never satisfied: `pyOrObj` discards the `status=success` condition, so
the wait polls only for `request_token` and times out instead of
terminating successfully, contradicting the claim. -/
theorem redirect_wait_ignores_status_success :
    autoSubmitted "https://kite.zerodha.com/?status=success".data = true ∧
    redirectWaitCondition = url_contains REQUEST_TOKEN ∧
    conditionHolds redirectWaitCondition
      "https://kite.zerodha.com/?status=success".data = false ∧
    (∀ u : List Char,
      conditionHolds redirectWaitCondition u = containsSub REQUEST_TOKEN u) :=
  ⟨by rfl, rfl, by rfl, fun _ => rfl⟩

/-! ## OTP entry (`ZerodhaClient.login`, lines 316-335)

```python
authkey = pyotp.TOTP(self.config["authenticator"]).now()
max_retries = 3
for attempt in range(max_retries):
    try:
        totp_box.clear()
        totp_box.send_keys(authkey)
        break
    except Exception:
        if attempt < max_retries - 1:
            time.sleep(1)
            totp_box = driver.find_element(...)
        else:
            raise
```
-/

/-- Events of the OTP step: the TOTP code being generated (line 316), an
entry attempt sending a code (lines 322-323), and the re-location of the
OTP field before a retry (lines 330-333). -/
inductive OtpEvent where
  | generate (code : List Char)
  | enter (attempt : Nat) (code : List Char)
  | relocate
deriving DecidableEq

/-- The `for attempt in range(max_retries)` loop of lines 320-335, with
`remaining` iterations left and `attempt` the current index.  `entry k`
says whether clearing the field and sending the keys on attempt `k`
raises (`.error e`) or succeeds.  The result is `.ok (some k)` when the
loop breaks after a successful entry on attempt `k`, `.error e` when the
last attempt re-raises `e`, and `.ok none` when the range is exhausted
without either (impossible for a positive bound; kept for faithfulness). -/
def otpEntryLoop {ε : Type} (entry : Nat → Except ε PUnit) (authkey : List Char) :
    Nat → Nat → List OtpEvent × Except ε (Option Nat)
  | 0, _ => ([], .ok none)
  | remaining + 1, attempt =>
    match entry attempt with
    | .ok _ => ([.enter attempt authkey], .ok (some attempt))
    | .error e =>
      if remaining = 0 then
        ([.enter attempt authkey], .error e)
      else
        let r := otpEntryLoop entry authkey remaining (attempt + 1)
        (.enter attempt authkey :: .relocate :: r.1, r.2)

/-- Lines 316-335: the TOTP code is computed once, before the loop, and
the loop runs with `max_retries = 3`. -/
def otpPhase {ε : Type} (totpNow : Unit → List Char)
    (entry : Nat → Except ε PUnit) : List OtpEvent × Except ε (Option Nat) :=
  let authkey := totpNow ()
  let r := otpEntryLoop entry authkey 3 0
  (OtpEvent.generate authkey :: r.1, r.2)

def isEnterEvent : OtpEvent → Bool
  | .enter _ _ => true
  | _ => false

def isGenerateEvent : OtpEvent → Bool
  | .generate _ => true
  | _ => false

/-- Every event of the entry loop is an entry or a re-location (never a
TOTP generation), and every entry sends exactly `authkey`. -/
theorem otpEntryLoop_events {ε : Type} (entry : Nat → Except ε PUnit)
    (authkey : List Char) :
    ∀ (remaining attempt : Nat) (ev : OtpEvent),
      ev ∈ (otpEntryLoop entry authkey remaining attempt).1 →
      isGenerateEvent ev = false ∧ ∀ a c, ev = OtpEvent.enter a c → c = authkey := by
  intro remaining
  induction remaining with
  | zero => intro attempt ev h; simp [otpEntryLoop] at h
  | succ rem ih =>
    intro attempt ev h
    cases he : entry attempt with
    | ok u =>
      simp only [otpEntryLoop, he, List.mem_singleton] at h
      subst h
      exact ⟨rfl, fun a c hc => by cases hc; rfl⟩
    | error e =>
      by_cases hrem : rem = 0
      · subst hrem
        simp only [otpEntryLoop, he, if_true, List.mem_singleton] at h
        subst h
        exact ⟨rfl, fun a c hc => by cases hc; rfl⟩
      · simp only [otpEntryLoop, he, hrem, if_false, List.mem_cons] at h
        rcases h with rfl | rfl | h
        · exact ⟨rfl, fun a c hc => by cases hc; rfl⟩
        · exact ⟨rfl, fun a c hc => by cases hc⟩
        · exact ih (attempt + 1) ev h

/-- C5: OTP code entry is retried at most 3 times; with failures on all
three attempts the third failure re-raises the underlying exception
unchanged; a success on attempt `k` (0-, 1- or 2-indexed entry) exits the
loop immediately after attempt `k` with no further entry attempts; and
every re-entry is preceded by a re-location of the OTP field. -/
theorem otp_entry_retry_policy {ε : Type} (entry : Nat → Except ε PUnit)
    (authkey : List Char) :
    ((otpEntryLoop entry authkey 3 0).1.filter isEnterEvent).length ≤ 3 ∧
    (∀ e0 e1 e2, entry 0 = .error e0 → entry 1 = .error e1 → entry 2 = .error e2 →
      otpEntryLoop entry authkey 3 0 =
        ([.enter 0 authkey, .relocate, .enter 1 authkey, .relocate,
          .enter 2 authkey], .error e2)) ∧
    (entry 0 = .ok ⟨⟩ →
      otpEntryLoop entry authkey 3 0 = ([.enter 0 authkey], .ok (some 0))) ∧
    (∀ e0, entry 0 = .error e0 → entry 1 = .ok ⟨⟩ →
      otpEntryLoop entry authkey 3 0 =
        ([.enter 0 authkey, .relocate, .enter 1 authkey], .ok (some 1))) ∧
    (∀ e0 e1, entry 0 = .error e0 → entry 1 = .error e1 → entry 2 = .ok ⟨⟩ →
      otpEntryLoop entry authkey 3 0 =
        ([.enter 0 authkey, .relocate, .enter 1 authkey, .relocate,
          .enter 2 authkey], .ok (some 2))) ∧
    (∀ a c, OtpEvent.enter (a + 1) c ∈ (otpEntryLoop entry authkey 3 0).1 →
      [OtpEvent.relocate, OtpEvent.enter (a + 1) c].Sublist
        (otpEntryLoop entry authkey 3 0).1) := by
  refine ⟨?_, ?_, ?_, ?_, ?_, ?_⟩
  · cases h0 : entry 0 with
    | ok u => simp [otpEntryLoop, h0, isEnterEvent]
    | error e0 =>
      cases h1 : entry 1 with
      | ok u => simp [otpEntryLoop, h0, h1, isEnterEvent]
      | error e1 =>
        cases h2 : entry 2 with
        | ok u => simp [otpEntryLoop, h0, h1, h2, isEnterEvent]
        | error e2 => simp [otpEntryLoop, h0, h1, h2, isEnterEvent]
  · intro e0 e1 e2 h0 h1 h2
    simp [otpEntryLoop, h0, h1, h2]
  · intro h0
    simp [otpEntryLoop, h0]
  · intro e0 h0 h1
    simp [otpEntryLoop, h0, h1]
  · intro e0 e1 h0 h1 h2
    simp [otpEntryLoop, h0, h1, h2]
  · intro a c hmem
    cases h0 : entry 0 with
    | ok u =>
      rw [show otpEntryLoop entry authkey 3 0 =
        ([.enter 0 authkey], .ok (some 0)) by simp [otpEntryLoop, h0]] at hmem ⊢
      simp at hmem
    | error e0 =>
      cases h1 : entry 1 with
      | ok u =>
        rw [show otpEntryLoop entry authkey 3 0 =
          ([.enter 0 authkey, .relocate, .enter 1 authkey], .ok (some 1)) by
            simp [otpEntryLoop, h0, h1]] at hmem ⊢
        simp only [List.mem_cons, List.not_mem_nil, or_false] at hmem
        rcases hmem with h | h | h
        · exact absurd h (by simp)
        · exact absurd h (by simp)
        · rw [h]
          exact (List.Sublist.cons _ (List.Sublist.cons₂ _
            (List.Sublist.cons₂ _ List.Sublist.slnil)))
      | error e1 =>
        cases h2 : entry 2 with
        | ok u =>
          rw [show otpEntryLoop entry authkey 3 0 =
            ([.enter 0 authkey, .relocate, .enter 1 authkey, .relocate,
              .enter 2 authkey], .ok (some 2)) by
                simp [otpEntryLoop, h0, h1, h2]] at hmem ⊢
          simp only [List.mem_cons, List.not_mem_nil, or_false] at hmem
          rcases hmem with h | h | h | h | h
          · exact absurd h (by simp)
          · exact absurd h (by simp)
          · rw [h]
            exact (List.Sublist.cons _ (List.Sublist.cons₂ _
              (List.Sublist.cons₂ _ (List.Sublist.cons _
                (List.Sublist.cons _ List.Sublist.slnil)))))
          · exact absurd h (by simp)
          · rw [h]
            exact (List.Sublist.cons _ (List.Sublist.cons _
              (List.Sublist.cons _ (List.Sublist.cons₂ _
                (List.Sublist.cons₂ _ List.Sublist.slnil)))))
        | error e2 =>
          rw [show otpEntryLoop entry authkey 3 0 =
            ([.enter 0 authkey, .relocate, .enter 1 authkey, .relocate,
              .enter 2 authkey], .error e2) by
                simp [otpEntryLoop, h0, h1, h2]] at hmem ⊢
          simp only [List.mem_cons, List.not_mem_nil, or_false] at hmem
          rcases hmem with h | h | h | h | h
          · exact absurd h (by simp)
          · exact absurd h (by simp)
          · rw [h]
            exact (List.Sublist.cons _ (List.Sublist.cons₂ _
              (List.Sublist.cons₂ _ (List.Sublist.cons _
                (List.Sublist.cons _ List.Sublist.slnil)))))
          · exact absurd h (by simp)
          · rw [h]
            exact (List.Sublist.cons _ (List.Sublist.cons _
              (List.Sublist.cons _ (List.Sublist.cons₂ _
                (List.Sublist.cons₂ _ List.Sublist.slnil)))))

theorem otp_entry_retry_policy_witness :
    otpEntryLoop (fun k => if k = 0 then .error "stale element" else .ok ⟨⟩)
        "123456".data 3 0 =
      ([.enter 0 "123456".data, .relocate, .enter 1 "123456".data],
        .ok (some 1)) :=
  (otp_entry_retry_policy (fun k => if k = 0 then .error "stale element" else .ok ⟨⟩)
    "123456".data).2.2.2.1 "stale element" (by rfl) (by rfl)

/-- C10: within a single login attempt the TOTP code is computed exactly
once — the trace of the OTP phase contains exactly one generation event,
carrying the code for the attempt's generation time — and every entry
retry within the attempt re-sends that identical code string.  A fresh
code can only come from a new attempt-level cycle running `otpPhase`
again with a later generation time. -/
theorem totp_generated_once_per_attempt {ε : Type} (totpNow : Unit → List Char)
    (entry : Nat → Except ε PUnit) :
    (otpPhase totpNow entry).1.filter isGenerateEvent
      = [OtpEvent.generate (totpNow ())] ∧
    (∀ a c, OtpEvent.enter a c ∈ (otpPhase totpNow entry).1 → c = totpNow ()) := by
  constructor
  · show (OtpEvent.generate (totpNow ()) ::
        (otpEntryLoop entry (totpNow ()) 3 0).1).filter isGenerateEvent = _
    rw [List.filter_cons_of_pos (by rfl)]
    have hnil : (otpEntryLoop entry (totpNow ()) 3 0).1.filter isGenerateEvent
        = [] := by
      rw [List.filter_eq_nil_iff]
      intro ev hev
      have := (otpEntryLoop_events entry (totpNow ()) 3 0 ev hev).1
      simp [this]
    rw [hnil]
  · intro a c hmem
    rcases List.mem_cons.mp hmem with h | h
    · exact absurd h (by simp)
    · exact (otpEntryLoop_events entry (totpNow ()) 3 0 _ h).2 a c rfl

theorem totp_generated_once_per_attempt_witness :
    ("314159".data = (fun _ : Unit => "314159".data) ()) ∧
    (otpPhase (fun _ : Unit => "314159".data)
        ((fun k : Nat => if k = 0 then (.error "stale") else .ok ⟨⟩) :
          Nat → Except String PUnit)).1.filter
        isGenerateEvent = [OtpEvent.generate "314159".data] := by
  have h := totp_generated_once_per_attempt (fun _ : Unit => "314159".data)
    ((fun k : Nat => if k = 0 then (.error "stale") else .ok ⟨⟩) :
      Nat → Except String PUnit)
  refine ⟨h.2 1 "314159".data ?_, h.1⟩
  decide

/-! ## Attempt-level retry and session teardown
(`@retry(stop_max_attempt_number=3, wait_fixed=5000)` at line 210,
launch at lines 243-265, teardown at lines 411-415) -/

/-- Events of the attempt-level retry: a login cycle starting, a browser
session being launched, the `finally`-block quit attempt (with whether
the quit itself raised), and the fixed inter-attempt sleep. -/
inductive CycleEvent where
  | cycleStart (i : Nat)
  | launch (i : Nat)
  | quit (i : Nat) (raised : Bool)
  | sleep (ms : Nat)
deriving DecidableEq

/-- A whole-cycle failure: the browser could not be started (the
`RuntimeError` at line 265, raised before the `try` block), or the login
body failed with `e` inside the `try` block. -/
inductive LoginFailure (ε : Type) where
  | launchFailure
  | step (e : ε)

def WAIT_FIXED_MS : Nat := 5000

def STOP_MAX_ATTEMPTS : Nat := 3

/-- One whole-login cycle (one call of the decorated `login`).  If the
launch fails, the `raise` at line 265 happens before the `try`/`finally`
of lines 267-415, so no session exists and no quit is attempted.
Otherwise the body runs to its outcome and the `finally` always attempts
`driver.quit()`, with any teardown exception suppressed by
`except Exception: pass` — the body's outcome is returned unchanged. -/
def loginCycle {ε α : Type} (launchOk : Nat → Bool) (body : Nat → Except ε α)
    (quitRaises : Nat → Bool) (i : Nat) :
    List CycleEvent × Except (LoginFailure ε) α :=
  if launchOk i then
    ([.cycleStart i, .launch i, .quit i (quitRaises i)],
      match body i with
      | .ok a => .ok a
      | .error e => .error (.step e))
  else
    ([.cycleStart i], .error .launchFailure)

/-- The `retrying` wrapper: run a cycle; on failure with attempts left,
sleep the fixed delay and run the next cycle; the last cycle's failure
propagates unchanged. -/
def retryLoop {β α : Type} (cycle : Nat → List CycleEvent × Except β α) :
    Nat → Nat → List CycleEvent × Except β α
  | 0, i => cycle i
  | 1, i => cycle i
  | remaining + 2, i =>
    match cycle i with
    | (tr, .ok a) => (tr, .ok a)
    | (tr, .error _) =>
      let r := retryLoop cycle (remaining + 1) (i + 1)
      (tr ++ CycleEvent.sleep WAIT_FIXED_MS :: r.1, r.2)

/-- The decorated `login` as called from `main`: at most 3 cycles, 5000 ms
fixed delay, cycles numbered from 1. -/
def loginWithRetry {ε α : Type} (launchOk : Nat → Bool) (body : Nat → Except ε α)
    (quitRaises : Nat → Bool) : List CycleEvent × Except (LoginFailure ε) α :=
  retryLoop (loginCycle launchOk body quitRaises) STOP_MAX_ATTEMPTS 1

def isCycleStart : CycleEvent → Bool
  | .cycleStart _ => true
  | _ => false

/-- Unfolding `retryLoop` when the current cycle succeeds. -/
theorem retryLoop_step_ok {β α : Type} (cycle : Nat → List CycleEvent × Except β α)
    (r i : Nat) (tr : List CycleEvent) (a : α) (hc : cycle i = (tr, .ok a)) :
    retryLoop cycle (r + 2) i = (tr, .ok a) := by
  rw [retryLoop, hc]

/-- Unfolding `retryLoop` when the current cycle fails. -/
theorem retryLoop_step_err {β α : Type} (cycle : Nat → List CycleEvent × Except β α)
    (r i : Nat) (tr : List CycleEvent) (e : β) (hc : cycle i = (tr, .error e)) :
    retryLoop cycle (r + 2) i =
      (tr ++ CycleEvent.sleep WAIT_FIXED_MS :: (retryLoop cycle (r + 1) (i + 1)).1,
        (retryLoop cycle (r + 1) (i + 1)).2) := by
  rw [retryLoop, hc]

/-- The wrapper runs at most `n` cycles. -/
theorem retryLoop_cycleStart_count {β α : Type}
    (cycle : Nat → List CycleEvent × Except β α)
    (hone : ∀ i, ((cycle i).1.filter isCycleStart).length = 1) :
    ∀ n, 1 ≤ n → ∀ i,
      ((retryLoop cycle n i).1.filter isCycleStart).length ≤ n := by
  intro n
  induction n using Nat.strong_induction_on with
  | _ n ih =>
    intro hn i
    match n, hn with
    | 1, _ =>
      rw [retryLoop, hone i]
    | r + 2, _ =>
      cases hc : cycle i with
      | mk tr res =>
        cases res with
        | ok a =>
          rw [retryLoop_step_ok cycle r i tr a hc]
          have h1 : (tr.filter isCycleStart).length = 1 := by
            have := hone i
            rw [hc] at this
            exact this
          show (tr.filter isCycleStart).length ≤ r + 2
          omega
        | error e =>
          rw [retryLoop_step_err cycle r i tr e hc]
          have h1 : (tr.filter isCycleStart).length = 1 := by
            have := hone i
            rw [hc] at this
            exact this
          have h2 := ih (r + 1) (by omega) (by omega) (i + 1)
          have h3 : isCycleStart (CycleEvent.sleep WAIT_FIXED_MS) = false := rfl
          show ((tr ++ CycleEvent.sleep WAIT_FIXED_MS ::
            (retryLoop cycle (r + 1) (i + 1)).1).filter isCycleStart).length ≤ r + 2
          simp only [List.filter_append, List.length_append, List.filter_cons, h3,
            Bool.false_eq_true, if_false]
          omega

/-- Every sleep in the wrapper trace is the fixed inter-attempt delay. -/
theorem retryLoop_sleep_fixed {β α : Type}
    (cycle : Nat → List CycleEvent × Except β α)
    (hns : ∀ i ms, CycleEvent.sleep ms ∉ (cycle i).1) :
    ∀ n i ms, CycleEvent.sleep ms ∈ (retryLoop cycle n i).1 →
      ms = WAIT_FIXED_MS := by
  intro n
  induction n using Nat.strong_induction_on with
  | _ n ih =>
    intro i ms hmem
    match n with
    | 0 => exact absurd hmem (hns i ms)
    | 1 => exact absurd hmem (hns i ms)
    | r + 2 =>
      cases hc : cycle i with
      | mk tr res =>
        cases res with
        | ok a =>
          rw [retryLoop_step_ok cycle r i tr a hc] at hmem
          have := hns i ms
          rw [hc] at this
          exact absurd hmem this
        | error e =>
          rw [retryLoop_step_err cycle r i tr e hc] at hmem
          simp only [List.mem_append, List.mem_cons] at hmem
          rcases hmem with h | h | h
          · have := hns i ms
            rw [hc] at this
            exact absurd h this
          · cases h
            rfl
          · exact ih (r + 1) (by omega) (i + 1) ms h

/-- Every cycle that launches a session also attempts its teardown. -/
theorem retryLoop_quit_of_launch {β α : Type}
    (cycle : Nat → List CycleEvent × Except β α) (qv : Nat → Bool)
    (hq : ∀ j i, CycleEvent.launch i ∈ (cycle j).1 →
      CycleEvent.quit i (qv i) ∈ (cycle j).1) :
    ∀ n j i, CycleEvent.launch i ∈ (retryLoop cycle n j).1 →
      CycleEvent.quit i (qv i) ∈ (retryLoop cycle n j).1 := by
  intro n
  induction n using Nat.strong_induction_on with
  | _ n ih =>
    intro j i hmem
    match n with
    | 0 => exact hq j i hmem
    | 1 => exact hq j i hmem
    | r + 2 =>
      cases hc : cycle j with
      | mk tr res =>
        cases res with
        | ok a =>
          rw [retryLoop_step_ok cycle r j tr a hc] at hmem ⊢
          have := hq j i
          rw [hc] at this
          exact this hmem
        | error e =>
          rw [retryLoop_step_err cycle r j tr e hc] at hmem ⊢
          simp only [List.mem_append, List.mem_cons] at hmem ⊢
          rcases hmem with h | h | h
          · left
            have := hq j i
            rw [hc] at this
            exact this h
          · exact absurd h (by simp)
          · right; right
            exact ih (r + 1) (by omega) (j + 1) i h

/-- The wrapper result is unchanged when each cycle result is unchanged. -/
theorem retryLoop_result_congr {β α : Type}
    (c1 c2 : Nat → List CycleEvent × Except β α)
    (h : ∀ i, (c1 i).2 = (c2 i).2) :
    ∀ n i, (retryLoop c1 n i).2 = (retryLoop c2 n i).2 := by
  intro n
  induction n using Nat.strong_induction_on with
  | _ n ih =>
    intro i
    match n with
    | 0 => exact h i
    | 1 => exact h i
    | r + 2 =>
      cases hc1 : c1 i with
      | mk tr1 res1 =>
        cases hc2 : c2 i with
        | mk tr2 res2 =>
          have hres : res1 = res2 := by
            have := h i
            rw [hc1, hc2] at this
            exact this
          subst hres
          cases res1 with
          | ok a =>
            rw [retryLoop_step_ok c1 r i tr1 a hc1,
              retryLoop_step_ok c2 r i tr2 a hc2]
          | error e =>
            rw [retryLoop_step_err c1 r i tr1 e hc1,
              retryLoop_step_err c2 r i tr2 e hc2]
            exact ih (r + 1) (by omega) (i + 1)

/-- C6: the whole-login retry wrapper executes at most 3 full login
cycles; every inter-cycle delay is the fixed 5000 ms wait; every cycle
that successfully launches a browser session also attempts to tear it
down (quit), whatever the cycle's outcome; and whether the teardown
itself raises never changes the wrapper's result — quit errors are
suppressed and do not override the cycle's real outcome. -/
theorem login_retry_wrapper_policy {ε α : Type} (launchOk : Nat → Bool)
    (body : Nat → Except ε α) (quitRaises quitRaises2 : Nat → Bool) :
    ((loginWithRetry launchOk body quitRaises).1.filter isCycleStart).length ≤ 3 ∧
    (∀ ms, CycleEvent.sleep ms ∈ (loginWithRetry launchOk body quitRaises).1 →
      ms = WAIT_FIXED_MS) ∧
    (∀ i, CycleEvent.launch i ∈ (loginWithRetry launchOk body quitRaises).1 →
      CycleEvent.quit i (quitRaises i) ∈
        (loginWithRetry launchOk body quitRaises).1) ∧
    (loginWithRetry launchOk body quitRaises).2
      = (loginWithRetry launchOk body quitRaises2).2 := by
  have hone : ∀ i,
      (((loginCycle launchOk body quitRaises i).1).filter isCycleStart).length = 1 := by
    intro i
    cases hb : launchOk i <;> simp [loginCycle, hb, isCycleStart]
  have hns : ∀ i ms,
      CycleEvent.sleep ms ∉ (loginCycle launchOk body quitRaises i).1 := by
    intro i ms
    cases hb : launchOk i <;> simp [loginCycle, hb]
  have hq : ∀ j i,
      CycleEvent.launch i ∈ (loginCycle launchOk body quitRaises j).1 →
      CycleEvent.quit i (quitRaises i) ∈ (loginCycle launchOk body quitRaises j).1 := by
    intro j i h
    cases hb : launchOk j with
    | false => simp [loginCycle, hb] at h
    | true =>
      simp only [loginCycle, hb, if_true, List.mem_cons, List.not_mem_nil,
        or_false] at h ⊢
      rcases h with h | h | h
      · exact absurd h (by simp)
      · cases h
        simp
      · exact absurd h (by simp)
  have hres : ∀ i, (loginCycle launchOk body quitRaises i).2
      = (loginCycle launchOk body quitRaises2 i).2 := by
    intro i
    cases hb : launchOk i <;> simp [loginCycle, hb]
  exact ⟨retryLoop_cycleStart_count _ hone 3 (by omega) 1,
    retryLoop_sleep_fixed _ hns 3 1,
    retryLoop_quit_of_launch _ quitRaises hq 3 1,
    retryLoop_result_congr _ _ hres 3 1⟩

theorem login_retry_wrapper_policy_witness :
    ((loginWithRetry (fun _ => true)
        ((fun i => if i = 1 then .error "boom" else .ok "tok".data) :
          Nat → Except String (List Char))
        (fun _ => true)).1.filter isCycleStart).length ≤ 3 ∧
    CycleEvent.quit 1 true ∈ (loginWithRetry (fun _ => true)
        ((fun i => if i = 1 then .error "boom" else .ok "tok".data) :
          Nat → Except String (List Char))
        (fun _ => true)).1 ∧
    (loginWithRetry (fun _ => true)
        ((fun i => if i = 1 then .error "boom" else .ok "tok".data) :
          Nat → Except String (List Char))
        (fun _ => true)).2
      = (loginWithRetry (fun _ => true)
        ((fun i => if i = 1 then .error "boom" else .ok "tok".data) :
          Nat → Except String (List Char))
        (fun _ => false)).2 := by
  have h := login_retry_wrapper_policy (fun _ => true)
    ((fun i => if i = 1 then .error "boom" else .ok "tok".data) :
      Nat → Except String (List Char))
    (fun _ => true) (fun _ => false)
  refine ⟨h.1, h.2.2.1 1 ?_, h.2.2.2⟩
  decide

/-! ## First-screen submission (`ZerodhaClient.login`, lines 290-302)

```python
submit_btns = driver.find_elements(By.XPATH, '//button[@type="submit"]')
if submit_btns:
    submit_btns[0].click()
else:
    alt_btns = driver.find_elements(By.XPATH, "//button[contains(translate(., upper, lower), 'login') or contains(..., 'sign in')]")
    if alt_btns:
        alt_btns[0].click()
    else:
        raise Exception("Login submit button not found")
```
-/

/-- A button on the login page: its `type` attribute and its full visible
text content. -/
structure Button where
  btype : List Char
  text : List Char
deriving DecidableEq

/-- The XPath `translate(., 'ABC...Z', 'abc...z')`: lowercase the ASCII
letters of the button's string value. -/
def translateLower (s : List Char) : List Char :=
  s.map (fun c => if 'A' ≤ c ∧ c ≤ 'Z' then Char.ofNat (c.toNat + 32) else c)

/-- `//button[@type="submit"]` (line 290). -/
def isSubmitTyped (b : Button) : Bool :=
  b.btype == "submit".data

/-- The fallback XPath of lines 294-298: the lowercased text contains
`login` or `sign in`. -/
def isAltLoginButton (b : Button) : Bool :=
  containsSub "login".data (translateLower b.text) ||
  containsSub "sign in".data (translateLower b.text)

/-- Lines 290-302: click the first submit-typed button if one exists,
else the first text-matched button, else raise. -/
def firstScreenSubmit (buttons : List Button) : Except String Button :=
  match buttons.filter isSubmitTyped with
  | b :: _ => .ok b
  | [] =>
    match buttons.filter isAltLoginButton with
    | b :: _ => .ok b
    | [] => .error "Login submit button not found"

/-- C7: first-screen submission follows the fixed fallback order — if a
submit-typed button exists one of those is clicked; otherwise, if a
button whose lowercased visible text contains `login` or `sign in`
exists, one of those is clicked; otherwise the step fails with the
`Login submit button not found` exception without clicking anything. -/
theorem first_screen_submit_fallback (buttons : List Button) :
    (buttons.filter isSubmitTyped ≠ [] →
      ∃ b, firstScreenSubmit buttons = .ok b ∧ isSubmitTyped b = true ∧
        b ∈ buttons) ∧
    (buttons.filter isSubmitTyped = [] → buttons.filter isAltLoginButton ≠ [] →
      ∃ b, firstScreenSubmit buttons = .ok b ∧ isAltLoginButton b = true ∧
        b ∈ buttons) ∧
    (buttons.filter isSubmitTyped = [] → buttons.filter isAltLoginButton = [] →
      firstScreenSubmit buttons = .error "Login submit button not found") := by
  refine ⟨?_, ?_, ?_⟩
  · intro h
    cases hf : buttons.filter isSubmitTyped with
    | nil => exact absurd hf h
    | cons b bs =>
      have hb : b ∈ buttons.filter isSubmitTyped := hf ▸ List.mem_cons_self b bs
      exact ⟨b, by simp [firstScreenSubmit, hf], (List.mem_filter.mp hb).2,
        (List.mem_filter.mp hb).1⟩
  · intro h h2
    cases hf : buttons.filter isAltLoginButton with
    | nil => exact absurd hf h2
    | cons b bs =>
      have hb : b ∈ buttons.filter isAltLoginButton := hf ▸ List.mem_cons_self b bs
      exact ⟨b, by simp [firstScreenSubmit, h, hf], (List.mem_filter.mp hb).2,
        (List.mem_filter.mp hb).1⟩
  · intro h h2
    simp [firstScreenSubmit, h, h2]

theorem first_screen_submit_fallback_witness :
    ∃ b, firstScreenSubmit [⟨"button".data, "SIGN IN".data⟩] = .ok b ∧
      isAltLoginButton b = true ∧
      b ∈ [(⟨"button".data, "SIGN IN".data⟩ : Button)] :=
  (first_screen_submit_fallback [⟨"button".data, "SIGN IN".data⟩]).2.1
    (by rfl) (by decide)

/-! ## Persistence (`save_token_to_mongo`, lines 152-184; `main`,
lines 421-434)

`main` calls `client.login()`, and only on success calls
`save_token_to_mongo(access_token)` with the access token the exchange
step returned (`data["access_token"]`, line 392); on any failure it logs
and exits non-zero.  The upsert matches on
`updatedBy = TOKEN_UPDATED_BY` and `$set`s the token document with
`expiresAt = now + timedelta(hours=24)`; time is modelled in hours. -/

/-- The session payload returned by `kite.generate_session`. -/
structure SessionData where
  access_token : List Char
  user_id : List Char
  user_name : List Char
deriving DecidableEq

def TOKEN_UPDATED_BY : List Char := "aiman.singh30@gmail.com".data

/-- The `$set` document of the upsert (lines 169-184). -/
structure TokenDoc where
  accessToken : List Char
  updatedAt : Nat
  expiresAt : Nat
  isActive : Bool
  updatedBy : List Char
deriving DecidableEq

def tokenUpsertDoc (now : Nat) (access_token : List Char) : TokenDoc :=
  { accessToken := access_token
    updatedAt := now
    expiresAt := now + 24
    isActive := true
    updatedBy := TOKEN_UPDATED_BY }

/-- Observable effects of `main`. -/
inductive MainEvent where
  | upsert (filterUpdatedBy : List Char) (doc : TokenDoc)
  | printToken (tok : List Char)
  | exitNonZero
deriving DecidableEq

/-- `main` (lines 421-434). -/
def mainFlow {ε : Type} (loginResult : Except ε SessionData) (now : Nat) :
    List MainEvent :=
  match loginResult with
  | .ok data =>
    [MainEvent.upsert TOKEN_UPDATED_BY (tokenUpsertDoc now data.access_token),
     MainEvent.printToken data.access_token]
  | .error _ => [MainEvent.exitNonZero]

def isUpsert : MainEvent → Bool
  | .upsert _ _ => true
  | _ => false

/-- C8: for every successful login the persistence upsert is invoked
exactly once, with exactly the access token returned by the exchange
step, writing a document keyed by the fixed `updatedBy` identity whose
`expiresAt` equals the write time plus 24 hours; on a failed login the
persistence call is never invoked. -/
theorem persistence_call_policy {ε : Type} (loginResult : Except ε SessionData)
    (now : Nat) :
    (∀ data, loginResult = .ok data →
      (mainFlow loginResult now).filter isUpsert
        = [MainEvent.upsert TOKEN_UPDATED_BY
            (tokenUpsertDoc now data.access_token)] ∧
      (tokenUpsertDoc now data.access_token).accessToken = data.access_token ∧
      (tokenUpsertDoc now data.access_token).expiresAt = now + 24 ∧
      (tokenUpsertDoc now data.access_token).updatedBy = TOKEN_UPDATED_BY) ∧
    (∀ e, loginResult = .error e →
      (mainFlow loginResult now).filter isUpsert = []) := by
  constructor
  · intro data h
    subst h
    exact ⟨by simp [mainFlow, isUpsert], rfl, rfl, rfl⟩
  · intro e h
    subst h
    simp [mainFlow, isUpsert]

theorem persistence_call_policy_witness :
    (mainFlow (Except.ok ⟨"tok".data, "XW7136".data, "Aiman".data⟩ :
        Except String SessionData) 100).filter isUpsert
      = [MainEvent.upsert TOKEN_UPDATED_BY (tokenUpsertDoc 100 "tok".data)] := by
  exact ((persistence_call_policy
    (Except.ok ⟨"tok".data, "XW7136".data, "Aiman".data⟩ : Except String SessionData)
    100).1 ⟨"tok".data, "XW7136".data, "Aiman".data⟩ rfl).1
